import Mathlib

/-!
Verification development for the chess engine of pygame-chess.

The position model, legality checking, reversible move application and the
FEN parser live in `chess/board.py`; the value types live in
`chess/const.py`.  `board.py` is written against an idealized `const.py`
exposing `CastlingType.KingSide` / `CastlingType.QueenSide`, a
`MoveFlags.LoseCastling` field and a four-argument `Move` constructor; the
`const.py` actually shipped declares none of these (that mismatch is
modelled separately in the ConstPy section below).  The board embedding in
this file follows `board.py`'s own text, using the names `board.py`
references.

Machine integers are modelled as `Int` / `Nat`; Python list indexing on the
64-entry board (which accepts indices in [-64, 63] and raises otherwise) is
modelled by `pyIdx`; operations that can raise in Python return `Option` /
`Except` values, with `none` / `.error` standing for the raised exception.
-/

/-- Piece kinds, from const.py `PieceType` (values 0..6). -/
inductive PieceType where
  | Empty
  | Pawn
  | Knight
  | Bishop
  | Rook
  | Queen
  | King
deriving DecidableEq, Repr

/-- Piece colours, from const.py `PieceColour` (values 0, 8, 16). -/
inductive PieceColour where
  | Empty
  | White
  | Black
deriving DecidableEq, Repr

/-- const.py `Piece` dataclass: a (type, colour) pair.  The field `Type` is
renamed `Ty` because `Type` is reserved in Lean. -/
structure Piece where
  Ty : PieceType
  Colour : PieceColour
deriving DecidableEq, Repr

/-- `Piece.empty()`: the canonical empty-square value. -/
def Piece.empty : Piece := ⟨PieceType.Empty, PieceColour.Empty⟩

/-- The castling sides board.py references as `CastlingType.KingSide` /
`CastlingType.QueenSide`. -/
inductive CastlingType where
  | KingSide
  | QueenSide
deriving DecidableEq, Repr

/-- The move-flags record board.py expects: optional promotion piece,
optional castling variant performed, optional set of castling rights lost
(modelled as a list; board.py only iterates it to flip rights, so order and
multiplicity are irrelevant). -/
structure MoveFlags where
  PawnPromotion : Option Piece := none
  Castling : Option CastlingType := none
  LoseCastling : Option (List CastlingType) := none
deriving DecidableEq, Repr

/-- The move record board.py expects: source and destination squares, the
piece captured at the destination, and flags. -/
structure Move where
  From : Fin 64
  To : Fin 64
  Captured : Piece
  Flags : MoveFlags := {}
deriving DecidableEq, Repr

/-- The castling-rights table `self._castling_rights`: a nested dict keyed
by colour (White/Black only) and castling side, modelled as four booleans. -/
structure CastlingRights where
  whiteKing : Bool
  whiteQueen : Bool
  blackKing : Bool
  blackQueen : Bool
deriving DecidableEq, Repr

/-- Dict lookup `self._castling_rights[colour][side]`.  A colour of Empty is
not a key of the Python dict, so the lookup raises KeyError: `none`. -/
def get_right (r : CastlingRights) (c : PieceColour) (s : CastlingType) : Option Bool :=
  match c with
  | PieceColour.White =>
      some (match s with | CastlingType.KingSide => r.whiteKing | CastlingType.QueenSide => r.whiteQueen)
  | PieceColour.Black =>
      some (match s with | CastlingType.KingSide => r.blackKing | CastlingType.QueenSide => r.blackQueen)
  | PieceColour.Empty => none

/-- Dict store `self._castling_rights[colour][side] = v`; KeyError on an
Empty colour. -/
def set_right (r : CastlingRights) (c : PieceColour) (s : CastlingType) (v : Bool) :
    Option CastlingRights :=
  match c with
  | PieceColour.White =>
      some (match s with
            | CastlingType.KingSide => { r with whiteKing := v }
            | CastlingType.QueenSide => { r with whiteQueen := v })
  | PieceColour.Black =>
      some (match s with
            | CastlingType.KingSide => { r with blackKing := v }
            | CastlingType.QueenSide => { r with blackQueen := v })
  | PieceColour.Empty => none

/-- The loop `for castling in move.Flags.LoseCastling: rights[colour][castling] = v`,
propagating the KeyError of a store on an Empty colour. -/
def apply_lose (r : CastlingRights) (c : PieceColour) (lst : List CastlingType) (v : Bool) :
    Option CastlingRights :=
  match lst with
  | [] => some r
  | x :: t =>
    match set_right r c x v with
    | none => none
    | some r' => apply_lose r' c t v

/-- The Chessboard state observable through the engine API: the 64-square
array `_board`, `_active_colour`, `_castling_rights`, `_en_passant_target`
and `_halfmoves` (rendering attributes and the Zobrist table are carried
separately). -/
structure Chessboard where
  board : Fin 64 → Piece
  active_colour : PieceColour
  castling_rights : CastlingRights
  en_passant_target : Option Int
  halfmoves : Int

/-- Python list indexing into the length-64 board: indices 0..63 index
directly, -64..-1 wrap, anything else raises IndexError (`none`). -/
def pyIdx (i : Int) : Option (Fin 64) :=
  if h : 0 ≤ i ∧ i < 64 then some ⟨i.toNat, by omega⟩
  else if h2 : -64 ≤ i ∧ i < 0 then some ⟨(i + 64).toNat, by omega⟩
  else none

/-- Read `self._board[i]`, IndexError as `none`. -/
def bGet (b : Fin 64 → Piece) (i : Int) : Option Piece :=
  (pyIdx i).map b

/-- Write `self._board[i] = p`, IndexError as `none`. -/
def bSet (b : Fin 64 → Piece) (i : Int) (p : Piece) : Option (Fin 64 → Piece) :=
  (pyIdx i).map (fun j => Function.update b j p)

/-- Read `self._board[i]` at call sites whose indices provably lie in the
Python-valid range [-64, 63], where the default branch is unreachable. -/
def pyGetD (b : Fin 64 → Piece) (i : Int) : Piece :=
  match pyIdx i with
  | some j => b j
  | none => Piece.empty

/-- `Chessboard.at(x, y)`: coordinate-checked read that treats out-of-range
coordinates as an empty board edge. -/
def at_xy (b : Fin 64 → Piece) (x y : Int) : Piece :=
  if h : 0 ≤ x ∧ x ≤ 7 ∧ 0 ≤ y ∧ y ≤ 7 then b ⟨(x + y * 8).toNat, by omega⟩
  else Piece.empty

/-- `int(math.copysign(1, d))` for an int `d` (copysign of +0.0 is +1). -/
def pySign (d : Int) : Int := if d < 0 then -1 else 1

/-- `range(a, b)` ascending by 1. -/
def rangeUp (a b : Int) : List Int :=
  (List.range (b - a).toNat).map (fun k => a + k)

/-- `range(a, b, -1)` descending by 1. -/
def rangeDown (a b : Int) : List Int :=
  (List.range (a - b).toNat).map (fun k => a - k)

/-- `range(a, b, step)` for the steps ±1 the engine uses. -/
def pyRange (a b step : Int) : List Int :=
  if step = 1 then rangeUp a b else if step = -1 then rangeDown a b else []

/-- `Chessboard._can_pawn_make`: one-square push to an empty square, one
file-diagonal step only when capturing, or a two-square push from rank 1 or
6 (the code checks only that the destination is empty). -/
def can_pawn_make (b : Fin 64 → Piece) (x1 y1 x2 y2 : Int) : Bool :=
  let direction : Int := if (pyGetD b (y1 * 8 + x1)).Colour = PieceColour.White then -1 else 1
  let to_capture : Bool := (pyGetD b (y2 * 8 + x2)).Ty ≠ PieceType.Empty
  let dx := (x2 - x1).natAbs
  if y2 - y1 = direction ∧ ((dx = 1 ∧ to_capture) ∨ (dx = 0 ∧ ¬ to_capture)) then true
  else decide (¬ to_capture ∧ (y1 = 1 ∨ y1 = 6) ∧ y2 - y1 = direction * 2 ∧ dx = 0)

/-- `Chessboard._can_knight_make`. -/
def can_knight_make (x1 y1 x2 y2 : Int) : Bool :=
  let dx := (x2 - x1).natAbs
  let dy := (y2 - y1).natAbs
  dx = 1 ∧ dy = 2 ∨ dx = 2 ∧ dy = 1

/-- `Chessboard._diagonal_is_free` (end points excluded). -/
def diagonal_is_free (b : Fin 64 → Piece) (x1 y1 x2 y2 : Int) : Bool :=
  let signX := pySign (x2 - x1)
  let signY := pySign (y2 - y1)
  ((pyRange (x1 + signX) x2 signX).zip (pyRange (y1 + signY) y2 signY)).all
    (fun p => (pyGetD b (p.2 * 8 + p.1)).Ty = PieceType.Empty)

/-- `Chessboard._horizontal_is_free` (end points excluded). -/
def horizontal_is_free (b : Fin 64 → Piece) (x1 y1 x2 : Int) : Bool :=
  let sign := pySign (x2 - x1)
  (pyRange (x1 + sign) x2 sign).all (fun x => (pyGetD b (y1 * 8 + x)).Ty = PieceType.Empty)

/-- `Chessboard._vertical_is_free` (end points excluded). -/
def vertical_is_free (b : Fin 64 → Piece) (x1 y1 y2 : Int) : Bool :=
  let sign := pySign (y2 - y1)
  (pyRange (y1 + sign) y2 sign).all (fun y => (pyGetD b (y * 8 + x1)).Ty = PieceType.Empty)

/-- `Chessboard._can_bishop_make`. -/
def can_bishop_make (b : Fin 64 → Piece) (x1 y1 x2 y2 : Int) : Bool :=
  ((x1 - x2).natAbs = (y1 - y2).natAbs) ∧ diagonal_is_free b x1 y1 x2 y2

/-- `Chessboard._can_rook_make`. -/
def can_rook_make (b : Fin 64 → Piece) (x1 y1 x2 y2 : Int) : Bool :=
  if y1 = y2 then horizontal_is_free b x1 y1 x2
  else if x1 = x2 then vertical_is_free b x1 y1 y2
  else false

/-- `Chessboard._can_queen_make`. -/
def can_queen_make (b : Fin 64 → Piece) (x1 y1 x2 y2 : Int) : Bool :=
  can_bishop_make b x1 y1 x2 y2 ∨ can_rook_make b x1 y1 x2 y2

/-- `Chessboard._can_king_make`: one square any direction, or a two-file
horizontal move (the castling geometry). -/
def can_king_make (x1 y1 x2 y2 : Int) : Bool :=
  ((x2 - x1).natAbs < 2 ∧ (y2 - y1).natAbs < 2) ∨ ((x1 - x2).natAbs = 2 ∧ y1 = y2)

/-- The per-kind validator dispatch `self._get_validator[type]`.  The dict
has no Empty key; the Empty branch is unreachable because `_force_can_make`
rejects an empty source square first. -/
def dispatch_validator (b : Fin 64 → Piece) (ty : PieceType) (x1 y1 x2 y2 : Int) : Bool :=
  match ty with
  | PieceType.Pawn => can_pawn_make b x1 y1 x2 y2
  | PieceType.Knight => can_knight_make x1 y1 x2 y2
  | PieceType.Bishop => can_bishop_make b x1 y1 x2 y2
  | PieceType.Rook => can_rook_make b x1 y1 x2 y2
  | PieceType.Queen => can_queen_make b x1 y1 x2 y2
  | PieceType.King => can_king_make x1 y1 x2 y2
  | PieceType.Empty => false

/-- `np.where(self._board == piece)[0][0]`: index of the first matching
square, IndexError (`none`) when the piece is absent. -/
def find_piece (b : Fin 64 → Piece) (p : Piece) : Option (Fin 64) :=
  (List.finRange 64).find? (fun i => b i = p)

/-- The straight-ray scan `_line` inside `_king_is_safe`: walk the given
coordinates and decide from the first occupied square.  `find?` models the
loop's early return at the first non-empty square. -/
def line_scan (b : Fin 64 → Piece) (coords : List (Int × Int)) (oRook oQueen : Piece) : Bool :=
  match (coords.map (fun p => at_xy b p.1 p.2)).find? (fun pc => pc.Ty ≠ PieceType.Empty) with
  | some pc => pc = oRook ∨ pc = oQueen
  | none => false

/-- The diagonal-ray scan `_diagonal` inside `_king_is_safe`. -/
def diag_scan (b : Fin 64 → Piece) (coords : List (Int × Int)) (oBishop oQueen : Piece) : Bool :=
  match (coords.map (fun p => at_xy b p.1 p.2)).find? (fun pc => pc.Ty ≠ PieceType.Empty) with
  | some pc => pc = oBishop ∨ pc = oQueen
  | none => false

/-- `Chessboard._king_is_safe(colour)`: locate the king, scan rank/file
rays, diagonals, pawn squares, knight offsets and enemy-king adjacency.
`none` models the IndexError raised when a required king is absent. -/
def king_is_safe (b : Fin 64 → Piece) (colour : PieceColour) : Option Bool :=
  match find_piece b ⟨PieceType.King, colour⟩ with
  | none => none
  | some kp =>
    let kx : Int := ((kp : Nat) % 8 : Nat)
    let ky : Int := ((kp : Nat) / 8 : Nat)
    let right_side := rangeUp (kx + 1) 8
    let left_side := rangeDown (kx - 1) (-1)
    let bottom_side := rangeUp (ky + 1) 8
    let top_side := rangeDown (ky - 1) (-1)
    let o_colour := if colour = PieceColour.Black then PieceColour.White else PieceColour.Black
    let o_pawn : Piece := ⟨PieceType.Pawn, o_colour⟩
    let o_knight : Piece := ⟨PieceType.Knight, o_colour⟩
    let o_bishop : Piece := ⟨PieceType.Bishop, o_colour⟩
    let o_rook : Piece := ⟨PieceType.Rook, o_colour⟩
    let o_queen : Piece := ⟨PieceType.Queen, o_colour⟩
    let o_king : Piece := ⟨PieceType.King, o_colour⟩
    if line_scan b (right_side.map (fun c => (c, ky))) o_rook o_queen ∨
       line_scan b (left_side.map (fun c => (c, ky))) o_rook o_queen ∨
       line_scan b (top_side.map (fun c => (kx, c))) o_rook o_queen ∨
       line_scan b (bottom_side.map (fun c => (kx, c))) o_rook o_queen then some false
    else if diag_scan b (right_side.zip bottom_side) o_bishop o_queen ∨
            diag_scan b (left_side.zip bottom_side) o_bishop o_queen ∨
            diag_scan b (right_side.zip top_side) o_bishop o_queen ∨
            diag_scan b (left_side.zip top_side) o_bishop o_queen then some false
    else
      let sign : Int := if colour = PieceColour.White then -1 else 1
      if at_xy b (kx + 1) (ky + sign) = o_pawn ∨ at_xy b (kx - 1) (ky + sign) = o_pawn then
        some false
      else if at_xy b (kx + 1) (ky + 2) = o_knight ∨ at_xy b (kx - 1) (ky + 2) = o_knight ∨
              at_xy b (kx + 2) (ky + 1) = o_knight ∨ at_xy b (kx - 2) (ky + 1) = o_knight ∨
              at_xy b (kx + 1) (ky - 2) = o_knight ∨ at_xy b (kx - 1) (ky - 2) = o_knight ∨
              at_xy b (kx + 2) (ky - 1) = o_knight ∨ at_xy b (kx - 2) (ky - 1) = o_knight then
        some false
      else
        match find_piece b o_king with
        | none => none
        | some okp =>
          if can_king_make ((okp : Nat) % 8 : Nat) ((okp : Nat) / 8 : Nat) kx ky then some false
          else some true

/-- `Chessboard._force_can_make(move)`: validate a candidate move ignoring
king safety and turn order, decorating it with castling flags.  Result
`some none` is Python's `return None`; outer `none` is the KeyError raised
by a castling-rights lookup on an Empty-coloured piece. -/
def force_can_make (s : Chessboard) (m : Move) : Option (Option Move) :=
  if m.Captured ≠ s.board m.To then some none else
  let this_piece := s.board m.From
  let other_piece := s.board m.To
  if this_piece.Ty = PieceType.Empty then some none else
  if other_piece.Ty ≠ PieceType.Empty ∧ other_piece.Colour = this_piece.Colour then some none else
  let fI : Int := ((m.From : Nat) : Int)
  let tI : Int := ((m.To : Nat) : Int)
  let y1 : Int := fI / 8
  let y2 : Int := tI / 8
  let x1 : Int := fI % 8
  let x2 : Int := tI % 8
  if this_piece.Ty = PieceType.King ∧ y1 = y2 ∧ (x1 - x2).natAbs = 2 ∧
      m.Captured = Piece.empty then
    let castling := if x1 - x2 = 2 then CastlingType.QueenSide else CastlingType.KingSide
    if castling = CastlingType.QueenSide ∧
        (pyGetD s.board (tI - 1) ≠ Piece.empty ∨ pyGetD s.board (fI - 1) ≠ Piece.empty ∨
         pyGetD s.board (fI - 2) ≠ Piece.empty) then some none
    else if castling = CastlingType.KingSide ∧
        (pyGetD s.board (fI + 1) ≠ Piece.empty ∨ pyGetD s.board (fI + 2) ≠ Piece.empty) then
      some none
    else
      match get_right s.castling_rights this_piece.Colour castling with
      | none => none
      | some granted =>
        if granted then
          let other_side := if castling = CastlingType.QueenSide then CastlingType.KingSide
                            else CastlingType.QueenSide
          match get_right s.castling_rights this_piece.Colour other_side with
          | none => none
          | some og =>
            let lost := if og then [castling, other_side] else [castling]
            let mv : Move := ⟨m.From, m.To, m.Captured, ⟨none, some castling, some lost⟩⟩
            some (if dispatch_validator s.board this_piece.Ty x1 y1 x2 y2 then some mv else none)
        else some none
  else if this_piece.Ty = PieceType.King then
    match get_right s.castling_rights this_piece.Colour CastlingType.KingSide,
          get_right s.castling_rights this_piece.Colour CastlingType.QueenSide with
    | some ks, some qs =>
      let lost := (if ks then [CastlingType.KingSide] else []) ++
                  (if qs then [CastlingType.QueenSide] else [])
      let mv : Move := ⟨m.From, m.To, m.Captured, ⟨none, none, some lost⟩⟩
      some (if dispatch_validator s.board this_piece.Ty x1 y1 x2 y2 then some mv else none)
    | _, _ => none
  else if this_piece.Ty = PieceType.Rook then
    if x1 = 0 then
      match get_right s.castling_rights this_piece.Colour CastlingType.QueenSide with
      | none => none
      | some qs =>
        let mv : Move := if qs then
            ⟨m.From, m.To, m.Captured, ⟨none, none, some [CastlingType.QueenSide]⟩⟩
          else m
        some (if dispatch_validator s.board this_piece.Ty x1 y1 x2 y2 then some mv else none)
    else if x1 = 7 then
      match get_right s.castling_rights this_piece.Colour CastlingType.KingSide with
      | none => none
      | some ks =>
        let mv : Move := if ks then
            ⟨m.From, m.To, m.Captured, ⟨none, none, some [CastlingType.KingSide]⟩⟩
          else m
        some (if dispatch_validator s.board this_piece.Ty x1 y1 x2 y2 then some mv else none)
    else some (if dispatch_validator s.board this_piece.Ty x1 y1 x2 y2 then some m else none)
  else some (if dispatch_validator s.board this_piece.Ty x1 y1 x2 y2 then some m else none)

/-- The castling-rights step of `make_move` (board.py 235-238): on a
LoseCastling flag, clear each named right of the colour of the piece at
`move.From`. -/
def make_rights (s : Chessboard) (m : Move) : Option CastlingRights :=
  match m.Flags.LoseCastling with
  | none => some s.castling_rights
  | some lst => apply_lose s.castling_rights (s.board m.From).Colour lst false

/-- The board step of `make_move` (board.py 240-248): move the piece, empty
the source, and on a Castling flag relocate the rook. -/
def make_board (b : Fin 64 → Piece) (m : Move) : Option (Fin 64 → Piece) :=
  let b1 := Function.update (Function.update b m.To (b m.From)) m.From Piece.empty
  match m.Flags.Castling with
  | none => some b1
  | some CastlingType.KingSide => do
    let v ← bGet b1 (((m.To : Nat) : Int) + 1)
    let t ← bSet b1 (((m.From : Nat) : Int) + 1) v
    bSet t (((m.To : Nat) : Int) + 1) Piece.empty
  | some CastlingType.QueenSide => do
    let v ← bGet b1 (((m.To : Nat) : Int) - 2)
    let t ← bSet b1 (((m.From : Nat) : Int) - 1) v
    bSet t (((m.To : Nat) : Int) - 2) Piece.empty

/-- `Chessboard.make_move(move)`: rights update, half-move increment, piece
relocation and rook relocation for castling.  The active colour and the
en-passant target are not touched.  `none` models a raised KeyError /
IndexError. -/
def make_move (s : Chessboard) (m : Move) : Option Chessboard := do
  let r ← make_rights s m
  let b ← make_board s.board m
  some { board := b, active_colour := s.active_colour, castling_rights := r,
         en_passant_target := s.en_passant_target, halfmoves := s.halfmoves + 1 }

/-- The castling-rights step of `unmake_move` (board.py 252-255): restore
each named right of the colour of the piece sitting at `move.To`. -/
def unmake_rights (s : Chessboard) (m : Move) : Option CastlingRights :=
  match m.Flags.LoseCastling with
  | none => some s.castling_rights
  | some lst => apply_lose s.castling_rights (s.board m.To).Colour lst true

/-- The board step of `unmake_move` (board.py 257-265): move the piece
back, restore the captured piece, and undo the rook relocation. -/
def unmake_board (b : Fin 64 → Piece) (m : Move) : Option (Fin 64 → Piece) :=
  let b1 := Function.update (Function.update b m.From (b m.To)) m.To m.Captured
  match m.Flags.Castling with
  | none => some b1
  | some CastlingType.KingSide => do
    let v ← bGet b1 (((m.From : Nat) : Int) + 1)
    let t ← bSet b1 (((m.To : Nat) : Int) + 1) v
    bSet t (((m.From : Nat) : Int) + 1) Piece.empty
  | some CastlingType.QueenSide => do
    let v ← bGet b1 (((m.From : Nat) : Int) - 1)
    let t ← bSet b1 (((m.To : Nat) : Int) - 2) v
    bSet t (((m.From : Nat) : Int) - 1) Piece.empty

/-- `Chessboard.unmake_move(move)`: the inverse bookkeeping, decrementing
the half-move clock. -/
def unmake_move (s : Chessboard) (m : Move) : Option Chessboard := do
  let r ← unmake_rights s m
  let b ← unmake_board s.board m
  some { board := b, active_colour := s.active_colour, castling_rights := r,
         en_passant_target := s.en_passant_target, halfmoves := s.halfmoves - 1 }

/-- `Chessboard.can_make(move)`: the public legality check.  Returns the
Python return value paired with the board state left behind; outer `none`
models an exception escaping the call (the board it leaves behind is then
unspecified, as in Python). -/
def can_make (s : Chessboard) (m : Move) : Option (Option Move × Chessboard) :=
  match force_can_make s m with
  | none => none
  | some none => some (none, s)
  | some (some completed) =>
    if (s.board m.To).Ty = PieceType.King then some (none, s)
    else do
      let s1 ← make_move s m
      let safety ← king_is_safe s1.board (s1.board m.To).Colour
      let s2 ← unmake_move s1 m
      some ((if safety then some completed else none), s2)

/-- `make_move` followed by `unmake_move` with the same move value. -/
def round_trip (s : Chessboard) (m : Move) : Option Chessboard :=
  (make_move s m).bind (fun s1 => unmake_move s1 m)

/-- `PieceType.value` (const.py). -/
def pieceTypeValue : PieceType → Nat
  | PieceType.Empty => 0
  | PieceType.Pawn => 1
  | PieceType.Knight => 2
  | PieceType.Bishop => 3
  | PieceType.Rook => 4
  | PieceType.Queen => 5
  | PieceType.King => 6

/-- `PieceColour.value` (const.py). -/
def pieceColourValue : PieceColour → Nat
  | PieceColour.Empty => 0
  | PieceColour.White => 8
  | PieceColour.Black => 16

/-- The `PIECE_INDICES` dict (const.py 60-72), keyed by
`type.value | colour.value`; KeyError (`none`) on any other key. -/
def piece_indices (n : Nat) : Option (Fin 12) :=
  if n = 9 then some 0 else if n = 17 then some 1
  else if n = 10 then some 2 else if n = 18 then some 3
  else if n = 11 then some 4 else if n = 19 then some 5
  else if n = 12 then some 6 else if n = 20 then some 7
  else if n = 13 then some 8 else if n = 21 then some 9
  else if n = 14 then some 10 else if n = 22 then some 11
  else none

/-- `PIECE_INDICES[piece.Type.value | piece.Colour.value]`. -/
def hash_index (p : Piece) : Option (Fin 12) :=
  piece_indices (Nat.lor (pieceTypeValue p.Ty) (pieceColourValue p.Colour))

/-- A Zobrist table: one 64-bit value per (square, piece index); board.py
fills it with random bits once per instance and never mutates it. -/
def ZTable : Type := Fin 64 → Fin 12 → Nat

/-- The loop of `Chessboard.hash`: skip empty squares, XOR the table entry
of every occupied one into the accumulator; KeyError (`none`) if an
occupied square holds a piece outside the twelve `PIECE_INDICES` keys. -/
def hash_fold (zt : ZTable) (b : Fin 64 → Piece) : List (Fin 64) → Nat → Option Nat
  | [], h => some h
  | i :: t, h =>
    if (b i).Ty ≠ PieceType.Empty then
      match hash_index (b i) with
      | none => none
      | some j => hash_fold zt b t (Nat.xor h (zt i j))
    else hash_fold zt b t h

/-- `Chessboard.hash()` over the instance's Zobrist table. -/
def Chessboard.hash (zt : ZTable) (s : Chessboard) : Option Nat :=
  hash_fold zt s.board (List.finRange 64) 0

/-- Spec-side description of the hash ("XORs together the table entries for
every occupied square"), for the refinement half of the hash claim; the
index of each occupied piece is read through `hash_index` with a dummy
default that well-formedness makes irrelevant. -/
def hashSpec (zt : ZTable) (b : Fin 64 → Piece) : Nat :=
  (((List.finRange 64).filter (fun i => (b i).Ty ≠ PieceType.Empty)).map
    (fun i => zt i ((hash_index (b i)).getD 0))).foldl Nat.xor 0

/-- Every non-empty piece on the board carries a real colour (the data-model
invariant "Kind=None iff Side=None" of the documented Piece type; states
violating it are only reachable by injecting a raw array via from_state). -/
def ColouredPieces (s : Chessboard) : Prop :=
  ∀ i : Fin 64, (s.board i).Ty ≠ PieceType.Empty → (s.board i).Colour ≠ PieceColour.Empty

instance (s : Chessboard) : Decidable (ColouredPieces s) := by
  unfold ColouredPieces; infer_instance

/-- The four observable position components named by the round-trip /
frame claims: squares, castling rights, en-passant target, half-move
clock. -/
def obsEq (a b : Chessboard) : Bool :=
  decide (∀ i : Fin 64, a.board i = b.board i) && decide (a.castling_rights = b.castling_rights) &&
  decide (a.en_passant_target = b.en_passant_target) && decide (a.halfmoves = b.halfmoves)

/-- Board square at a raw Nat index is empty (false when out of range). -/
def emptyAtNat (b : Fin 64 → Piece) (n : Nat) : Bool :=
  if h : n < 64 then b ⟨n, h⟩ = Piece.empty else false

/-- Flag consistency of a move with respect to a position: every castling
right the move claims to forfeit is currently granted to the colour of the
moving piece (with distinct source and destination), and a Castling flag
comes with the geometry and empty rook-transit square that
`_force_can_make` establishes before ever setting that flag. -/
def flags_consistent (s : Chessboard) (m : Move) : Bool :=
  (match m.Flags.LoseCastling with
   | none => true
   | some lst =>
     lst.isEmpty ||
       (decide (m.From ≠ m.To) &&
        lst.all (fun c =>
          get_right s.castling_rights (s.board m.From).Colour c == some true)))
  &&
  (match m.Flags.Castling with
   | none => true
   | some CastlingType.KingSide =>
     decide (((m.To : Nat) : Int) = ((m.From : Nat) : Int) + 2) &&
       emptyAtNat s.board ((m.From : Nat) + 1)
   | some CastlingType.QueenSide =>
     decide (((m.To : Nat) : Int) = ((m.From : Nat) : Int) - 2) &&
       emptyAtNat s.board ((m.From : Nat) - 1))

/-- Python `str.split()`: split on whitespace runs, dropping empty pieces. -/
def splitWsAux : List Char → List Char → List (List Char)
  | [], acc => if acc.isEmpty then [] else [acc.reverse]
  | c :: rest, acc =>
    if c = ' ' ∨ c = '\t' ∨ c = '\n' then
      if acc.isEmpty then splitWsAux rest [] else acc.reverse :: splitWsAux rest []
    else splitWsAux rest (c :: acc)

/-- Python `str.split()` on a character list. -/
def splitWs (s : List Char) : List (List Char) := splitWsAux s []

/-- Python `str.isnumeric()` restricted to the ASCII digits a FEN carries. -/
def isNumericStr (s : List Char) : Bool := !s.isEmpty && s.all Char.isDigit

/-- Python `int(...)` on a digit string. -/
def natOfDigits (s : List Char) : Nat :=
  s.foldl (fun a c => a * 10 + (c.toNat - 48)) 0

/-- The `fen_dict` lookup on a lower-cased symbol (board.py 436-441). -/
def fen_dict (c : Char) : Option PieceType :=
  if c = 'p' then some PieceType.Pawn
  else if c = 'n' then some PieceType.Knight
  else if c = 'b' then some PieceType.Bishop
  else if c = 'r' then some PieceType.Rook
  else if c = 'q' then some PieceType.Queen
  else if c = 'k' then some PieceType.King
  else none

/-- The piece-placement loop of `_parse_fen` (board.py 446-458): walk the
first field, checking `/` boundaries against `% 8`, adding digit
run-lengths (asserting the running count stays below 65), and placing
recognized letters; `.error` covers both the failed asserts and the
IndexError of a placement at square 64. -/
def placeChars : List Char → (Fin 64 → Piece) → Nat → Except String ((Fin 64 → Piece) × Nat)
  | [], b, pos => Except.ok (b, pos)
  | c :: rest, b, pos =>
    if c = '/' then
      if pos % 8 = 0 then placeChars rest b pos else Except.error "Invalid FEN string"
    else if c.isDigit then
      let p := pos + (c.toNat - 48)
      if p < 65 then placeChars rest b p else Except.error "Invalid FEN string"
    else
      match fen_dict c.toLower with
      | none => Except.error "Invalid FEN string"
      | some ty =>
        let clr := if c.isUpper then PieceColour.White else PieceColour.Black
        if h : pos < 64 then
          placeChars rest (Function.update b ⟨pos, h⟩ ⟨ty, clr⟩) (pos + 1)
        else Except.error "IndexError"

/-- The active-colour field (board.py 461-466). -/
def parse_active (f : List Char) : Except String PieceColour :=
  if f = ['b'] then Except.ok PieceColour.Black
  else if f = ['w'] then Except.ok PieceColour.White
  else Except.error "Invalid FEN string"

/-- Set one castling right for White (upper-case letter) or Black. -/
def set_right_wb (r : CastlingRights) (white : Bool) (s : CastlingType) (v : Bool) :
    CastlingRights :=
  match white, s with
  | true, CastlingType.KingSide => { r with whiteKing := v }
  | true, CastlingType.QueenSide => { r with whiteQueen := v }
  | false, CastlingType.KingSide => { r with blackKing := v }
  | false, CastlingType.QueenSide => { r with blackQueen := v }

/-- The castling-rights field (board.py 468-479). -/
def parse_castling_field : List Char → CastlingRights → Except String CastlingRights
  | [], r => Except.ok r
  | c :: rest, r =>
    if c.toLower = 'q' then
      parse_castling_field rest (set_right_wb r c.isUpper CastlingType.QueenSide true)
    else if c.toLower = 'k' then
      parse_castling_field rest (set_right_wb r c.isUpper CastlingType.KingSide true)
    else Except.error "Invalid FEN string"

/-- The en-passant field (board.py 481-487). -/
def parse_ep_field (f : List Char) : Except String (Option Int) :=
  if f = ['-'] then Except.ok none
  else
    match f with
    | [c0, c1] =>
      if 96 < c0.toNat ∧ c0.toNat < 105 then
        if c1.isDigit ∧ 0 < c1.toNat - 48 ∧ c1.toNat - 48 < 9 then
          Except.ok (some ((8 - ((c1.toNat : Int) - 48)) * 8 + ((c0.toNat : Int) - 97)))
        else Except.error "Invalid FEN string"
      else Except.error "Invalid FEN string"
    | _ => Except.error "Invalid FEN string"

/-- The full-move field check `assert fields[4].isnumeric()` (board.py 489). -/
def check_fullmove (f : List Char) : Except String Unit :=
  if isNumericStr f then Except.ok () else Except.error "Invalid FEN string"

/-- The half-move field `assert fields[5].isnumeric() and int(fields[5]) >= 0`
followed by the store (board.py 491-492). -/
def parse_halfmove (f : List Char) : Except String Int :=
  if isNumericStr f then
    if (natOfDigits f : Int) ≥ 0 then Except.ok (natOfDigits f)
    else Except.error "Invalid FEN string"
  else Except.error "Invalid FEN string"

/-- `Chessboard._parse_fen` applied to the already-split fields.  The
starting state is the one `cls()` builds: an empty board, White active, no
castling rights, no en-passant target, half-move clock 0. -/
def parse_fields (fields : List (List Char)) : Except String Chessboard :=
  if fields.length = 6 then do
    let bp ← placeChars (fields.getD 0 []) (fun _ => Piece.empty) 0
    if bp.2 = 64 then do
      let ac ← parse_active (fields.getD 1 [])
      let cr ← (if fields.getD 2 [] = ['-'] then Except.ok ⟨false, false, false, false⟩
                else parse_castling_field (fields.getD 2 []) ⟨false, false, false, false⟩)
      let ep ← parse_ep_field (fields.getD 3 [])
      let _ ← check_fullmove (fields.getD 4 [])
      let hm ← parse_halfmove (fields.getD 5 [])
      Except.ok { board := bp.1, active_colour := ac, castling_rights := cr,
                  en_passant_target := ep, halfmoves := hm }
    else Except.error "Invalid FEN string"
  else Except.error "Invalid FEN string"

/-- `Chessboard._parse_fen(fen_string)`. -/
def parse_fen (s : List Char) : Except String Chessboard :=
  parse_fields (splitWs s)

/-- `Chessboard.from_fen`: re-raises the parser's AssertionError as a
ValueError carrying the same message, so it succeeds or fails exactly as
`_parse_fen` does. -/
def from_fen (s : List Char) : Except String Chessboard := parse_fen s

/-- A character the placement parser recognizes: a rank separator, a digit
run-length, or a piece letter in either case. -/
def recognizedChar (c : Char) : Bool :=
  c = '/' || c.isDigit || (fen_dict c.toLower).isSome

/-- Squares a placement character stands for: none for `/`, its value for a
digit, one for a piece letter. -/
def squareSpan (c : Char) : Nat :=
  if c = '/' then 0 else if c.isDigit then c.toNat - 48 else 1

/-- Total number of squares a placement field describes. -/
def squareSum (s : List Char) : Nat := (s.map squareSpan).sum

/-- Each `/` in the placement field sits at a running square count that is
a multiple of 8 (the boundary condition the parser actually enforces). -/
def boundariesAligned : List Char → Nat → Bool
  | [], _ => true
  | c :: rest, pos =>
    if c = '/' then decide (pos % 8 = 0) && boundariesAligned rest pos
    else boundariesAligned rest (pos + squareSpan c)

/-- The ranks of a placement field: the (possibly empty) chunks between
`/` separators. -/
def splitSlashAux : List Char → List Char → List (List Char)
  | [], acc => [acc.reverse]
  | c :: rest, acc =>
    if c = '/' then acc.reverse :: splitSlashAux rest []
    else splitSlashAux rest (c :: acc)

/-- Split a placement field at its `/` separators, keeping empty ranks. -/
def splitSlash (s : List Char) : List (List Char) := splitSlashAux s []

/-!
## ConstPy: the value-type module actually shipped

`chess/const.py` declares `CastlingType` with members BlackKing / WhiteKing
/ BlackQueen / WhiteQueen, a frozen dataclass `MoveFlags` with fields
PawnPromotion and Castling only, and a frozen dataclass `Move` whose
`Flags = MoveFlags()` line carries no type annotation — making it a class
attribute, so `Move.__init__` takes exactly the three parameters From, To,
Captured.  The definitions below model Python's dynamic attribute / call
resolution against those declarations, with `none` for the AttributeError
or TypeError the interpreter raises. -/

/-- The member names of `CastlingType` as declared in const.py 41-45. -/
def castlingTypeMembers : List String :=
  ["BlackKing", "WhiteKing", "BlackQueen", "WhiteQueen"]

/-- The dataclass fields of `MoveFlags` as declared in const.py 48-51. -/
def moveFlagsFields : List String := ["PawnPromotion", "Castling"]

/-- The `__init__` parameters of dataclass `Move` (const.py 75-80): the
un-annotated `Flags = MoveFlags()` is a class attribute, not a field. -/
def moveInitParams : List String := ["From", "To", "Captured"]

/-- Python enum attribute access `Enum.<name>`: AttributeError (`none`)
unless `name` is a member. -/
def enumAttr (members : List String) (name : String) : Option String :=
  if name ∈ members then some name else none

/-- Python dataclass instance attribute access: AttributeError (`none`)
unless the name is a declared field. -/
def fieldAttr (fields : List String) (name : String) : Option String :=
  if name ∈ fields then some name else none

/-- A positional dataclass call with `args` arguments: TypeError (`none`)
unless the arity matches the init parameters.  A keyword call additionally
requires every keyword to name an init parameter. -/
def dataclassCall (params : List String) (args : Nat) (keywords : List String) : Option Unit :=
  if args + keywords.length = params.length ∧ ∀ k ∈ keywords, k ∈ params then some ()
  else none

/-- `Chessboard.__init__` (board.py 25-33) building the castling-rights
dict evaluates `CastlingType.KingSide` against the shipped enum. -/
def chessboardInitAccess : Option String := enumAttr castlingTypeMembers "KingSide"

/-- `Chessboard.from_fen` begins with `cls()`, so it performs the same
attribute access as `__init__`. -/
def fromFenInitAccess : Option String := chessboardInitAccess

/-- `Chessboard.from_state` also begins with `cls()`. -/
def fromStateInitAccess : Option String := chessboardInitAccess

/-- `_force_can_make`'s flag decoration (board.py 185-187) calls
`MoveFlags(Castling=..., LoseCastling=...)` against the shipped dataclass. -/
def forceCanMakeFlagsCall : Option Unit :=
  dataclassCall moveFlagsFields 0 ["Castling", "LoseCastling"]

/-- `_force_can_make` then calls `Move(From, To, Captured, flags)` with
four positional arguments against the shipped three-parameter dataclass. -/
def forceCanMakeMoveCall : Option Unit := dataclassCall moveInitParams 4 []

/-- `make_move` / `unmake_move` (board.py 235, 252) read
`move.Flags.LoseCastling`; `move.Flags` resolves to the class-attribute
`MoveFlags()` instance, on which `LoseCastling` is looked up. -/
def makeMoveLoseCastlingAccess : Option String := fieldAttr moveFlagsFields "LoseCastling"

/-!
## Helper lemmas
-/

theorem pyIdx_some_iff (i : Int) (j : Fin 64) :
    pyIdx i = some j ↔
      ((0 ≤ i ∧ i < 64 ∧ ((j : Nat) : Int) = i) ∨
       (-64 ≤ i ∧ i < 0 ∧ ((j : Nat) : Int) = i + 64)) := by
  unfold pyIdx
  split_ifs with h1 h2 <;> simp [Fin.ext_iff] <;> omega

theorem bGet_eq_some {b : Fin 64 → Piece} {i : Int} {p : Piece} :
    bGet b i = some p ↔ ∃ j, pyIdx i = some j ∧ b j = p := by
  simp [bGet, Option.map_eq_some']

theorem bSet_eq_some {b : Fin 64 → Piece} {i : Int} {p : Piece} {b' : Fin 64 → Piece} :
    bSet b i p = some b' ↔ ∃ j, pyIdx i = some j ∧ b' = Function.update b j p := by
  simp [bSet, Option.map_eq_some', eq_comm]

theorem get_right_isSome (r : CastlingRights) {c : PieceColour} (hc : c ≠ PieceColour.Empty)
    (s : CastlingType) : ∃ g, get_right r c s = some g := by
  cases c <;> simp_all [get_right]

theorem apply_lose_white (r : CastlingRights) (lst : List CastlingType) (v : Bool) :
    apply_lose r PieceColour.White lst v = some
      { r with
        whiteKing := if CastlingType.KingSide ∈ lst then v else r.whiteKing,
        whiteQueen := if CastlingType.QueenSide ∈ lst then v else r.whiteQueen } := by
  induction lst generalizing r with
  | nil => simp [apply_lose]
  | cons x t ih =>
    cases x <;> rw [show apply_lose r PieceColour.White (_ :: t) v =
        apply_lose _ PieceColour.White t v from rfl, ih] <;>
      simp [List.mem_cons]

theorem apply_lose_black (r : CastlingRights) (lst : List CastlingType) (v : Bool) :
    apply_lose r PieceColour.Black lst v = some
      { r with
        blackKing := if CastlingType.KingSide ∈ lst then v else r.blackKing,
        blackQueen := if CastlingType.QueenSide ∈ lst then v else r.blackQueen } := by
  induction lst generalizing r with
  | nil => simp [apply_lose]
  | cons x t ih =>
    cases x <;> rw [show apply_lose r PieceColour.Black (_ :: t) v =
        apply_lose _ PieceColour.Black t v from rfl, ih] <;>
      simp [List.mem_cons]

/-- Clearing a list of granted rights and then re-granting the same list
restores the rights table exactly. -/
theorem apply_lose_round_trip (r : CastlingRights) (c : PieceColour) (lst : List CastlingType)
    (hall : ∀ x ∈ lst, get_right r c x = some true) :
    ∃ r1, apply_lose r c lst false = some r1 ∧ apply_lose r1 c lst true = some r := by
  cases c with
  | Empty =>
    cases lst with
    | nil => exact ⟨r, rfl, rfl⟩
    | cons x t => exact absurd (hall x (List.mem_cons_self x t)) (by simp [get_right])
  | White =>
    refine ⟨_, apply_lose_white r lst false, ?_⟩
    rw [apply_lose_white]
    have hk : CastlingType.KingSide ∈ lst → r.whiteKing = true := fun hm => by
      have := hall _ hm; simpa [get_right] using this
    have hq : CastlingType.QueenSide ∈ lst → r.whiteQueen = true := fun hm => by
      have := hall _ hm; simpa [get_right] using this
    cases r
    simp only
    split_ifs <;> simp_all
  | Black =>
    refine ⟨_, apply_lose_black r lst false, ?_⟩
    rw [apply_lose_black]
    have hk : CastlingType.KingSide ∈ lst → r.blackKing = true := fun hm => by
      have := hall _ hm; simpa [get_right] using this
    have hq : CastlingType.QueenSide ∈ lst → r.blackQueen = true := fun hm => by
      have := hall _ hm; simpa [get_right] using this
    cases r
    simp only
    split_ifs <;> simp_all

/-- After `make_move`'s square shuffle, the moved piece sits on the
destination square (castling relocations never touch `m.To`). -/
theorem make_board_at_to (b : Fin 64 → Piece) (m : Move) {bM : Fin 64 → Piece}
    (h1 : make_board b m = some bM)
    (hne : m.From ≠ m.To)
    (hks : m.Flags.Castling = some CastlingType.KingSide →
      ((m.To : Nat) : Int) = ((m.From : Nat) : Int) + 2)
    (hqs : m.Flags.Castling = some CastlingType.QueenSide →
      ((m.To : Nat) : Int) = ((m.From : Nat) : Int) - 2) :
    bM m.To = b m.From := by
  have hbase :
      (Function.update (Function.update b m.To (b m.From)) m.From Piece.empty) m.To
        = b m.From := by
    rw [Function.update_noteq (Ne.symm hne), Function.update_same]
  cases hc : m.Flags.Castling with
  | none =>
    simp only [make_board, hc, Option.some_inj] at h1
    rw [← h1, hbase]
  | some side =>
    cases side with
    | KingSide =>
      have hgeom := hks hc
      simp only [make_board, hc, Option.bind_eq_bind, Option.bind_eq_some] at h1
      obtain ⟨v, hv, t, ht, hm2⟩ := h1
      rw [bGet_eq_some] at hv
      obtain ⟨r1, hr1, hvv⟩ := hv
      rw [bSet_eq_some] at ht hm2
      obtain ⟨f1, hf1, htt⟩ := ht
      obtain ⟨r1', hr1', hmm⟩ := hm2
      rw [hr1, Option.some_inj] at hr1'
      subst hr1' htt hmm
      rw [pyIdx_some_iff] at hr1 hf1
      have hvr1 : ((r1 : Nat) : Int) = ((m.From : Nat) : Int) + 3 := by omega
      have hvf1 : ((f1 : Nat) : Int) = ((m.From : Nat) : Int) + 1 := by omega
      rw [Function.update_noteq (by
            intro he
            have : ((m.To : Nat) : Int) = ((r1 : Nat) : Int) := by rw [he]
            omega),
          Function.update_noteq (by
            intro he
            have : ((m.To : Nat) : Int) = ((f1 : Nat) : Int) := by rw [he]
            omega),
          hbase]
    | QueenSide =>
      have hgeom := hqs hc
      simp only [make_board, hc, Option.bind_eq_bind, Option.bind_eq_some] at h1
      obtain ⟨v, hv, t, ht, hm2⟩ := h1
      rw [bGet_eq_some] at hv
      obtain ⟨r1, hr1, hvv⟩ := hv
      rw [bSet_eq_some] at ht hm2
      obtain ⟨f1, hf1, htt⟩ := ht
      obtain ⟨r1', hr1', hmm⟩ := hm2
      rw [hr1, Option.some_inj] at hr1'
      subst hr1' htt hmm
      rw [pyIdx_some_iff] at hr1 hf1
      have hb64 : ((m.From : Nat) : Int) < 64 := by
        have := m.From.isLt; omega
      have hvr1 : ((r1 : Nat) : Int) = ((m.From : Nat) : Int) - 4 ∨
          ((r1 : Nat) : Int) = ((m.From : Nat) : Int) + 60 := by omega
      have hvf1 : ((f1 : Nat) : Int) = ((m.From : Nat) : Int) - 1 := by omega
      have hr64 : ((r1 : Nat) : Int) < 64 := by
        have := r1.isLt; omega
      rw [Function.update_noteq (by
            intro he
            have : ((m.To : Nat) : Int) = ((r1 : Nat) : Int) := by rw [he]
            omega),
          Function.update_noteq (by
            intro he
            have : ((m.To : Nat) : Int) = ((f1 : Nat) : Int) := by rw [he]
            omega),
          hbase]

theorem fin_ne_of_int {a c : Fin 64} (h : ((a : Nat) : Int) ≠ ((c : Nat) : Int)) : a ≠ c :=
  fun he => h (by rw [he])

/-- `make_move`'s square shuffle followed by `unmake_move`'s restores every
square, provided the captured piece matches the destination occupant and a
Castling flag comes with the king-move geometry and an empty rook-transit
square next to the source. -/
theorem board_round_trip (b : Fin 64 → Piece) (m : Move)
    (hcap : m.Captured = b m.To)
    (hks : m.Flags.Castling = some CastlingType.KingSide →
      ((m.To : Nat) : Int) = ((m.From : Nat) : Int) + 2 ∧
        emptyAtNat b ((m.From : Nat) + 1) = true)
    (hqs : m.Flags.Castling = some CastlingType.QueenSide →
      ((m.To : Nat) : Int) = ((m.From : Nat) : Int) - 2 ∧
        emptyAtNat b ((m.From : Nat) - 1) = true)
    {bM bU : Fin 64 → Piece}
    (h1 : make_board b m = some bM) (h2 : unmake_board bM m = some bU) :
    ∀ i, bU i = b i := by
  cases hc : m.Flags.Castling with
  | none =>
    simp only [make_board, hc, Option.some_inj] at h1
    simp only [unmake_board, hc, Option.some_inj] at h2
    subst h1 h2
    intro i
    by_cases hiT : i = m.To
    · subst hiT
      rw [Function.update_same, hcap]
    · rw [Function.update_noteq hiT]
      by_cases hiF : i = m.From
      · subst hiF
        rw [Function.update_same, Function.update_noteq (Ne.symm hiT),
            Function.update_same]
      · rw [Function.update_noteq hiF, Function.update_noteq hiF,
            Function.update_noteq hiT]
  | some side =>
    cases side with
    | KingSide =>
      obtain ⟨hgeom, hempty⟩ := hks hc
      have hF64 : (m.From : Nat) < 64 := m.From.isLt
      have hT64 : (m.To : Nat) < 64 := m.To.isLt
      -- extract the make_move shuffle
      simp only [make_board, hc, Option.bind_eq_bind, Option.bind_eq_some] at h1
      obtain ⟨v, hv, t, ht, hm2⟩ := h1
      rw [bGet_eq_some] at hv
      obtain ⟨r1, hr1, hvv⟩ := hv
      rw [bSet_eq_some] at ht hm2
      obtain ⟨f1, hf1, htt⟩ := ht
      obtain ⟨r1', hr1x, hmm⟩ := hm2
      rw [hr1, Option.some_inj] at hr1x
      subst hr1x htt hmm
      -- extract the unmake_move shuffle
      simp only [unmake_board, hc, Option.bind_eq_bind, Option.bind_eq_some] at h2
      obtain ⟨v2, hv2, t2, ht2, hu2⟩ := h2
      rw [bGet_eq_some] at hv2
      obtain ⟨f2, hf2, hvv2⟩ := hv2
      rw [hf1, Option.some_inj] at hf2
      subst hf2
      rw [bSet_eq_some] at ht2 hu2
      obtain ⟨r2, hr2, htt2⟩ := ht2
      rw [hr1, Option.some_inj] at hr2
      subst hr2 htt2
      obtain ⟨f3, hf3, huu⟩ := hu2
      rw [hf1, Option.some_inj] at hf3
      subst hf3 huu
      -- arithmetic facts about the four indices
      rw [pyIdx_some_iff] at hr1 hf1
      have hvr1 : ((r1 : Nat) : Int) = ((m.From : Nat) : Int) + 3 := by omega
      have hvf1 : ((f1 : Nat) : Int) = ((m.From : Nat) : Int) + 1 := by omega
      have hne_FT : m.From ≠ m.To := fin_ne_of_int (by omega)
      have hne_f1F : f1 ≠ m.From := fin_ne_of_int (by omega)
      have hne_f1T : f1 ≠ m.To := fin_ne_of_int (by omega)
      have hne_r1F : r1 ≠ m.From := fin_ne_of_int (by omega)
      have hne_r1T : r1 ≠ m.To := fin_ne_of_int (by omega)
      have hne_f1r1 : f1 ≠ r1 := fin_ne_of_int (by omega)
      -- the transit square next to the source is empty
      have hbf1 : b f1 = Piece.empty := by
        unfold emptyAtNat at hempty
        rw [dif_pos (show (m.From : Nat) + 1 < 64 by omega)] at hempty
        have hfe : f1 = ⟨(m.From : Nat) + 1, by omega⟩ :=
          Fin.ext (show (f1 : Nat) = (m.From : Nat) + 1 by omega)
        rw [hfe]
        exact of_decide_eq_true hempty
      -- values of the intermediate boards
      set b1 := Function.update (Function.update b m.To (b m.From)) m.From Piece.empty with hb1
      have hb1r1 : b1 r1 = b r1 := by
        rw [hb1, Function.update_noteq hne_r1F, Function.update_noteq hne_r1T]
      have hb1T : b1 m.To = b m.From := by
        rw [hb1, Function.update_noteq (Ne.symm hne_FT), Function.update_same]
      set bM := Function.update (Function.update b1 f1 v) r1 Piece.empty with hbM
      have hbMT : bM m.To = b m.From := by
        rw [hbM, Function.update_noteq (Ne.symm hne_r1T),
            Function.update_noteq (Ne.symm hne_f1T), hb1T]
      have hbMf1 : bM f1 = b r1 := by
        rw [hbM, Function.update_noteq hne_f1r1, Function.update_same, ← hvv, hb1r1]
      set b1u := Function.update (Function.update bM m.From (bM m.To)) m.To m.Captured
        with hb1u
      have hb1uf1 : b1u f1 = b r1 := by
        rw [hb1u, Function.update_noteq hne_f1T, Function.update_noteq hne_f1F, hbMf1]
      subst hvv2
      intro i
      by_cases hi1 : i = f1
      · subst hi1
        rw [Function.update_same, hbf1]
      · rw [Function.update_noteq hi1]
        by_cases hi2 : i = r1
        · subst hi2
          rw [Function.update_same, hb1uf1]
        · rw [Function.update_noteq hi2, hb1u]
          by_cases hi3 : i = m.To
          · subst hi3
            rw [Function.update_same, hcap]
          · rw [Function.update_noteq hi3]
            by_cases hi4 : i = m.From
            · subst hi4
              rw [Function.update_same, hbMT]
            · rw [Function.update_noteq hi4, hbM,
                  Function.update_noteq hi2, Function.update_noteq hi1, hb1,
                  Function.update_noteq hi4, Function.update_noteq hi3]
    | QueenSide =>
      obtain ⟨hgeom, hempty⟩ := hqs hc
      have hF64 : (m.From : Nat) < 64 := m.From.isLt
      have hT64 : (m.To : Nat) < 64 := m.To.isLt
      simp only [make_board, hc, Option.bind_eq_bind, Option.bind_eq_some] at h1
      obtain ⟨v, hv, t, ht, hm2⟩ := h1
      rw [bGet_eq_some] at hv
      obtain ⟨r1, hr1, hvv⟩ := hv
      rw [bSet_eq_some] at ht hm2
      obtain ⟨f1, hf1, htt⟩ := ht
      obtain ⟨r1', hr1x, hmm⟩ := hm2
      rw [hr1, Option.some_inj] at hr1x
      subst hr1x htt hmm
      simp only [unmake_board, hc, Option.bind_eq_bind, Option.bind_eq_some] at h2
      obtain ⟨v2, hv2, t2, ht2, hu2⟩ := h2
      rw [bGet_eq_some] at hv2
      obtain ⟨f2, hf2, hvv2⟩ := hv2
      rw [hf1, Option.some_inj] at hf2
      subst hf2
      rw [bSet_eq_some] at ht2 hu2
      obtain ⟨r2, hr2, htt2⟩ := ht2
      rw [hr1, Option.some_inj] at hr2
      subst hr2 htt2
      obtain ⟨f3, hf3, huu⟩ := hu2
      rw [hf1, Option.some_inj] at hf3
      subst hf3 huu
      rw [pyIdx_some_iff] at hr1 hf1
      have hr64 : ((r1 : Nat) : Int) < 64 := by have := r1.isLt; omega
      have hvr1 : ((r1 : Nat) : Int) = ((m.From : Nat) : Int) - 4 ∨
          ((r1 : Nat) : Int) = ((m.From : Nat) : Int) + 60 := by omega
      have hvf1 : ((f1 : Nat) : Int) = ((m.From : Nat) : Int) - 1 := by omega
      have hge2 : 2 ≤ ((m.From : Nat) : Int) := by omega
      have hne_FT : m.From ≠ m.To := fin_ne_of_int (by omega)
      have hne_f1F : f1 ≠ m.From := fin_ne_of_int (by omega)
      have hne_f1T : f1 ≠ m.To := fin_ne_of_int (by omega)
      have hne_r1F : r1 ≠ m.From := fin_ne_of_int (by omega)
      have hne_r1T : r1 ≠ m.To := fin_ne_of_int (by omega)
      have hne_f1r1 : f1 ≠ r1 := fin_ne_of_int (by omega)
      have hbf1 : b f1 = Piece.empty := by
        unfold emptyAtNat at hempty
        rw [dif_pos (show (m.From : Nat) - 1 < 64 by omega)] at hempty
        have hfe : f1 = ⟨(m.From : Nat) - 1, by omega⟩ :=
          Fin.ext (show (f1 : Nat) = (m.From : Nat) - 1 by omega)
        rw [hfe]
        exact of_decide_eq_true hempty
      set b1 := Function.update (Function.update b m.To (b m.From)) m.From Piece.empty with hb1
      have hb1r1 : b1 r1 = b r1 := by
        rw [hb1, Function.update_noteq hne_r1F, Function.update_noteq hne_r1T]
      have hb1T : b1 m.To = b m.From := by
        rw [hb1, Function.update_noteq (Ne.symm hne_FT), Function.update_same]
      set bM := Function.update (Function.update b1 f1 v) r1 Piece.empty with hbM
      have hbMT : bM m.To = b m.From := by
        rw [hbM, Function.update_noteq (Ne.symm hne_r1T),
            Function.update_noteq (Ne.symm hne_f1T), hb1T]
      have hbMf1 : bM f1 = b r1 := by
        rw [hbM, Function.update_noteq hne_f1r1, Function.update_same, ← hvv, hb1r1]
      set b1u := Function.update (Function.update bM m.From (bM m.To)) m.To m.Captured
        with hb1u
      have hb1uf1 : b1u f1 = b r1 := by
        rw [hb1u, Function.update_noteq hne_f1T, Function.update_noteq hne_f1F, hbMf1]
      subst hvv2
      intro i
      by_cases hi1 : i = f1
      · subst hi1
        rw [Function.update_same, hbf1]
      · rw [Function.update_noteq hi1]
        by_cases hi2 : i = r1
        · subst hi2
          rw [Function.update_same, hb1uf1]
        · rw [Function.update_noteq hi2, hb1u]
          by_cases hi3 : i = m.To
          · subst hi3
            rw [Function.update_same, hcap]
          · rw [Function.update_noteq hi3]
            by_cases hi4 : i = m.From
            · subst hi4
              rw [Function.update_same, hbMT]
            · rw [Function.update_noteq hi4, hbM,
                  Function.update_noteq hi2, Function.update_noteq hi1, hb1,
                  Function.update_noteq hi4, Function.update_noteq hi3]

theorem obsEq_intro {a b : Chessboard} (h1 : ∀ i, a.board i = b.board i)
    (h2 : a.castling_rights = b.castling_rights)
    (h3 : a.en_passant_target = b.en_passant_target)
    (h4 : a.halfmoves = b.halfmoves) : obsEq a b = true := by
  unfold obsEq
  simp [h1, h2, h3, h4]

theorem flags_ks_of_consistent {s : Chessboard} {m : Move}
    (h : flags_consistent s m = true) :
    m.Flags.Castling = some CastlingType.KingSide →
      ((m.To : Nat) : Int) = ((m.From : Nat) : Int) + 2 ∧
        emptyAtNat s.board ((m.From : Nat) + 1) = true := by
  intro hc
  have hh := h
  unfold flags_consistent at hh
  rw [Bool.and_eq_true] at hh
  have h2 := hh.2
  rw [hc] at h2
  simp only [Bool.and_eq_true, decide_eq_true_eq] at h2
  exact h2

theorem flags_qs_of_consistent {s : Chessboard} {m : Move}
    (h : flags_consistent s m = true) :
    m.Flags.Castling = some CastlingType.QueenSide →
      ((m.To : Nat) : Int) = ((m.From : Nat) : Int) - 2 ∧
        emptyAtNat s.board ((m.From : Nat) - 1) = true := by
  intro hc
  have hh := h
  unfold flags_consistent at hh
  rw [Bool.and_eq_true] at hh
  have h2 := hh.2
  rw [hc] at h2
  simp only [Bool.and_eq_true, decide_eq_true_eq] at h2
  exact h2

theorem flags_lc_of_consistent {s : Chessboard} {m : Move} {x : CastlingType}
    {t : List CastlingType} (h : flags_consistent s m = true)
    (hlc : m.Flags.LoseCastling = some (x :: t)) :
    m.From ≠ m.To ∧
      ∀ c ∈ x :: t, get_right s.castling_rights (s.board m.From).Colour c = some true := by
  have hh := h
  unfold flags_consistent at hh
  rw [Bool.and_eq_true] at hh
  have h1 := hh.1
  rw [hlc] at h1
  rw [Bool.or_eq_true] at h1
  rcases h1 with he | hr
  · simp [List.isEmpty] at he
  · simp only [Bool.and_eq_true, decide_eq_true_eq, List.all_eq_true] at hr
    exact ⟨hr.1, fun c hm => by have := hr.2 c hm; exact beq_iff_eq.mp this⟩

/-- C1: for every board state and move whose `Captured` field matches the
destination occupant and whose flags are consistent with the position
(amended as forced by the counterexample), `make_move` followed by
`unmake_move` with the same move value restores the squares array, the four
castling rights, the en-passant target, and the half-move clock exactly. -/
theorem c1_round_trip_restores (s : Chessboard) (m : Move)
    (hcap : m.Captured = s.board m.To)
    (hflags : flags_consistent s m = true)
    (hs : (round_trip s m).isSome = true) :
    (round_trip s m).all (fun q => obsEq q s) = true := by
  rw [Option.isSome_iff_exists] at hs
  obtain ⟨s2, hrt⟩ := hs
  rw [hrt]
  show obsEq s2 s = true
  have hbind := hrt
  unfold round_trip at hbind
  rw [Option.bind_eq_some] at hbind
  obtain ⟨s1, hmk, hum⟩ := hbind
  simp only [make_move, Option.bind_eq_bind, Option.bind_eq_some, Option.some_inj] at hmk
  obtain ⟨r1, hmr, bM, hmb, hs1⟩ := hmk
  subst hs1
  simp only [unmake_move, Option.bind_eq_bind, Option.bind_eq_some, Option.some_inj] at hum
  obtain ⟨r2, hur, bU, hub, hs2⟩ := hum
  subst hs2
  have hboard : ∀ i, bU i = s.board i :=
    board_round_trip s.board m hcap (flags_ks_of_consistent hflags)
      (flags_qs_of_consistent hflags) hmb hub
  have hrights : r2 = s.castling_rights := by
    cases hlc : m.Flags.LoseCastling with
    | none =>
      unfold make_rights at hmr
      rw [hlc, Option.some_inj] at hmr
      unfold unmake_rights at hur
      rw [hlc, Option.some_inj] at hur
      rw [← hur, ← hmr]
    | some lst =>
      cases lst with
      | nil =>
        unfold make_rights at hmr
        rw [hlc] at hmr
        simp only [apply_lose, Option.some_inj] at hmr
        unfold unmake_rights at hur
        rw [hlc] at hur
        simp only [apply_lose, Option.some_inj] at hur
        rw [← hur, ← hmr]
      | cons x t =>
        obtain ⟨hFT, hall⟩ := flags_lc_of_consistent hflags hlc
        obtain ⟨ra, hfw, hbk⟩ :=
          apply_lose_round_trip s.castling_rights (s.board m.From).Colour (x :: t) hall
        unfold make_rights at hmr
        rw [hlc] at hmr
        dsimp only at hmr
        rw [hfw, Option.some_inj] at hmr
        subst hmr
        have hcol : bM m.To = s.board m.From :=
          make_board_at_to s.board m hmb hFT
            (fun hc => (flags_ks_of_consistent hflags hc).1)
            (fun hc => (flags_qs_of_consistent hflags hc).1)
        unfold unmake_rights at hur
        rw [hlc] at hur
        dsimp only at hur
        rw [hcol, hbk, Option.some_inj] at hur
        exact hur.symm
  exact obsEq_intro hboard hrights rfl (by dsimp only; omega)

theorem force_can_make_captured {s : Chessboard} {m : Move} {cm : Move}
    (h : force_can_make s m = some (some cm)) : m.Captured = s.board m.To := by
  by_cases hc : m.Captured = s.board m.To
  · exact hc
  · unfold force_can_make at h
    rw [if_pos hc] at h
    simp at h

/-- C2 (amended): for candidate moves carrying no flags — the only shape
the engine itself ever builds and passes to `can_make` — `can_make` leaves
the squares, castling rights, en-passant target, and half-move clock
unchanged whenever it returns, whether it returns a completed move or
null. -/
theorem c2_can_make_unchanged (s : Chessboard) (m : Move)
    (h1 : m.Flags.Castling = none) (h2 : m.Flags.LoseCastling = none) :
    (can_make s m).all (fun x => obsEq x.2 s) = true := by
  unfold can_make
  cases hf : force_can_make s m with
  | none => rfl
  | some o =>
    cases o with
    | none => exact obsEq_intro (fun i => rfl) rfl rfl rfl
    | some cm =>
      dsimp only
      by_cases hk : (s.board m.To).Ty = PieceType.King
      · rw [if_pos hk]
        exact obsEq_intro (fun i => rfl) rfl rfl rfl
      · rw [if_neg hk]
        have hcap : m.Captured = s.board m.To := force_can_make_captured hf
        have hmb : make_board s.board m =
            some (Function.update (Function.update s.board m.To (s.board m.From)) m.From
              Piece.empty) := by
          unfold make_board
          rw [h1]
        have hmk : make_move s m = some
            { board := Function.update (Function.update s.board m.To (s.board m.From)) m.From
                Piece.empty,
              active_colour := s.active_colour, castling_rights := s.castling_rights,
              en_passant_target := s.en_passant_target, halfmoves := s.halfmoves + 1 } := by
          unfold make_move make_rights
          rw [h2, hmb]
          rfl
        rw [hmk]
        set b1 := Function.update (Function.update s.board m.To (s.board m.From)) m.From
          Piece.empty with hb1
        show ((king_is_safe b1 ((b1 m.To).Colour)).bind fun safety =>
            (unmake_move _ m).bind fun s2 =>
              some ((if safety then some cm else none), s2)).all (fun x => obsEq x.2 s) = true
        cases hsafe : king_is_safe b1 ((b1 m.To).Colour) with
        | none => rfl
        | some safety =>
          have hub : unmake_board b1 m =
              some (Function.update (Function.update b1 m.From (b1 m.To)) m.To m.Captured) := by
            unfold unmake_board
            rw [h1]
          have hum : unmake_move
              { board := b1, active_colour := s.active_colour,
                castling_rights := s.castling_rights,
                en_passant_target := s.en_passant_target, halfmoves := s.halfmoves + 1 } m =
              some { board := Function.update (Function.update b1 m.From (b1 m.To)) m.To
                       m.Captured,
                     active_colour := s.active_colour, castling_rights := s.castling_rights,
                     en_passant_target := s.en_passant_target,
                     halfmoves := s.halfmoves + 1 - 1 } := by
            unfold unmake_move unmake_rights
            rw [h2]
            dsimp only
            rw [hub]
            rfl
          rw [Option.some_bind, hum, Option.some_bind]
          show obsEq _ s = true
          refine obsEq_intro ?_ rfl rfl (by dsimp only; omega)
          exact board_round_trip s.board m hcap
            (fun hc => by rw [h1] at hc; cases hc)
            (fun hc => by rw [h1] at hc; cases hc) hmb hub

-- On a board whose occupied squares all carry real colours,
-- `_force_can_make` never raises: every path returns a value.
set_option maxHeartbeats 1600000 in
theorem force_can_make_isSome (s : Chessboard) (m : Move) (hwf : ColouredPieces s) :
    (force_can_make s m).isSome = true := by
  simp only [force_can_make]
  by_cases hcap : m.Captured ≠ s.board m.To
  · rw [if_pos hcap]
    rfl
  rw [if_neg hcap]
  by_cases hty : (s.board m.From).Ty = PieceType.Empty
  · rw [if_pos hty]
    rfl
  rw [if_neg hty]
  have hcol : (s.board m.From).Colour ≠ PieceColour.Empty := hwf m.From hty
  obtain ⟨gK, hgK⟩ := get_right_isSome s.castling_rights hcol CastlingType.KingSide
  obtain ⟨gQ, hgQ⟩ := get_right_isSome s.castling_rights hcol CastlingType.QueenSide
  split_ifs
  all_goals try rfl
  all_goals
    simp only [hgK, hgQ]
    try dsimp only
    first
    | (split_ifs <;> rfl)
    | rfl

/-- C3: on a well-formed board, a candidate move whose destination holds
the enemy King is rejected: `can_make` returns null (before ever touching
the board), whatever the moving piece's type. -/
theorem c3_king_capture_rejected (s : Chessboard) (m : Move)
    (hwf : ColouredPieces s)
    (hk : (s.board m.To).Ty = PieceType.King)
    (henemy : (s.board m.To).Colour ≠ (s.board m.From).Colour) :
    can_make s m = some (none, s) := by
  unfold can_make
  cases hf : force_can_make s m with
  | none =>
    have hs := force_can_make_isSome s m hwf
    rw [hf] at hs
    cases hs
  | some o =>
    cases o with
    | none => rfl
    | some cm =>
      dsimp only
      rw [if_pos hk]

theorem hash_index_isSome (p : Piece) (h1 : p.Ty ≠ PieceType.Empty)
    (h2 : p.Colour ≠ PieceColour.Empty) : ∃ j, hash_index p = some j := by
  obtain ⟨ty, co⟩ := p
  cases ty <;> cases co <;>
    first
    | (exact absurd rfl h1)
    | (exact absurd rfl h2)
    | exact ⟨_, rfl⟩

theorem hash_fold_spec (zt : ZTable) (b : Fin 64 → Piece) (l : List (Fin 64)) (h0 : Nat)
    (hwfl : ∀ i ∈ l, (b i).Ty ≠ PieceType.Empty → (b i).Colour ≠ PieceColour.Empty) :
    hash_fold zt b l h0 = some ((l.filter (fun i => (b i).Ty ≠ PieceType.Empty)).foldl
      (fun h i => Nat.xor h (zt i ((hash_index (b i)).getD 0))) h0) := by
  induction l generalizing h0 with
  | nil => rfl
  | cons i t ih =>
    by_cases hi : (b i).Ty = PieceType.Empty
    · rw [show hash_fold zt b (i :: t) h0 =
          (if (b i).Ty ≠ PieceType.Empty then
            match hash_index (b i) with
            | none => none
            | some j => hash_fold zt b t (Nat.xor h0 (zt i j))
          else hash_fold zt b t h0) from rfl,
        if_neg (by simpa using hi)]
      rw [ih h0 (fun k hk => hwfl k (List.mem_cons_of_mem i hk))]
      congr 1
      congr 1
      simp [List.filter_cons, hi]
    · obtain ⟨j, hj⟩ := hash_index_isSome (b i) hi (hwfl i (List.mem_cons_self i t) hi)
      rw [show hash_fold zt b (i :: t) h0 =
          (if (b i).Ty ≠ PieceType.Empty then
            match hash_index (b i) with
            | none => none
            | some j => hash_fold zt b t (Nat.xor h0 (zt i j))
          else hash_fold zt b t h0) from rfl,
        if_pos (by simpa using hi), hj]
      dsimp only
      rw [ih _ (fun k hk => hwfl k (List.mem_cons_of_mem i hk))]
      have hfc : (i :: t).filter (fun k => (b k).Ty ≠ PieceType.Empty) =
          i :: t.filter (fun k => (b k).Ty ≠ PieceType.Empty) := by
        simp [List.filter_cons, hi]
      rw [hfc, List.foldl_cons, hj]
      rfl

/-- C8: for a fixed Zobrist table, `hash()` reads only the piece placement
(two states of the instance with the same squares hash identically whatever
their side to move, castling rights, en-passant target or clock), and on a
well-formed board it equals the XOR of the table entries of the occupied
squares. -/
theorem c8_hash_placement_only (zt : ZTable) (s1 s2 : Chessboard)
    (hb : s1.board = s2.board) (hwf : ColouredPieces s1) :
    Chessboard.hash zt s1 = Chessboard.hash zt s2 ∧
      Chessboard.hash zt s1 = some (hashSpec zt s1.board) := by
  constructor
  · unfold Chessboard.hash
    rw [hb]
  · unfold Chessboard.hash hashSpec
    rw [hash_fold_spec zt s1.board (List.finRange 64) 0 (fun i _ h => hwf i h),
      List.foldl_map]

/-- Whenever the placement loop completes, every character it consumed was
recognized, every `/` sat at a multiple-of-8 running count, and the final
count is the starting count plus the field's square total. -/
theorem placeChars_props : ∀ (s : List Char) (b : Fin 64 → Piece) (pos : Nat)
    (b' : Fin 64 → Piece) (pos' : Nat),
    placeChars s b pos = Except.ok (b', pos') →
    s.all recognizedChar = true ∧ boundariesAligned s pos = true ∧
      pos' = pos + squareSum s := by
  intro s
  induction s with
  | nil =>
    intro b pos b' pos' h
    simp only [placeChars, Except.ok.injEq, Prod.mk.injEq] at h
    refine ⟨rfl, rfl, ?_⟩
    simp [squareSum, h.2]
  | cons c rest ih =>
    intro b pos b' pos' h
    simp only [placeChars] at h
    have hss : squareSum (c :: rest) = squareSpan c + squareSum rest := by
      simp [squareSum]
    by_cases hc : c = '/'
    · rw [if_pos hc] at h
      by_cases hp : pos % 8 = 0
      · rw [if_pos hp] at h
        obtain ⟨a1, a2, a3⟩ := ih b pos b' pos' h
        have hsp : squareSpan c = 0 := by simp [squareSpan, hc]
        refine ⟨?_, ?_, by omega⟩
        · simp [List.all_cons, a1, recognizedChar, hc]
        · simp [boundariesAligned, hc, hp, hsp]
          exact a2
      · rw [if_neg hp] at h
        exact Except.noConfusion h
    · rw [if_neg hc] at h
      by_cases hd : c.isDigit
      · rw [if_pos hd] at h
        by_cases hlt : pos + (c.toNat - 48) < 65
        · rw [if_pos hlt] at h
          obtain ⟨a1, a2, a3⟩ := ih _ _ _ _ h
          have hsp : squareSpan c = c.toNat - 48 := by simp [squareSpan, hc, hd]
          refine ⟨?_, ?_, by omega⟩
          · simp [List.all_cons, a1, recognizedChar, hd]
          · simp only [boundariesAligned, if_neg hc, hsp]
            exact a2
        · rw [if_neg hlt] at h
          exact Except.noConfusion h
      · rw [if_neg hd] at h
        cases hfd : fen_dict c.toLower with
        | none =>
          rw [hfd] at h
          exact Except.noConfusion h
        | some ty =>
          rw [hfd] at h
          dsimp only at h
          by_cases hpos : pos < 64
          · rw [dif_pos hpos] at h
            obtain ⟨a1, a2, a3⟩ := ih _ _ _ _ h
            have hsp : squareSpan c = 1 := by simp [squareSpan, hc, hd]
            refine ⟨?_, ?_, by omega⟩
            · simp [List.all_cons, a1, recognizedChar, hfd]
            · simp only [boundariesAligned, if_neg hc, hsp]
              exact a2
          · rw [dif_neg hpos] at h
            exact Except.noConfusion h

/-- C6 (amended): the placement checks `from_fen` actually enforces — it
accepts the first field only if every character is recognized, every rank
separator sits at a running square count that is a multiple of 8, and the
total is exactly 64 (individual ranks may still sum to 0 or any multiple
of 8, as the counterexample shows). -/
theorem c6_placement_checks (fen : List Char)
    (h : (from_fen fen).isOk = true) :
    ((splitWs fen).getD 0 []).all recognizedChar = true ∧
      boundariesAligned ((splitWs fen).getD 0 []) 0 = true ∧
      squareSum ((splitWs fen).getD 0 []) = 64 := by
  unfold from_fen parse_fen parse_fields at h
  by_cases hl : (splitWs fen).length = 6
  · rw [if_pos hl] at h
    cases hp : placeChars ((splitWs fen).getD 0 []) (fun _ => Piece.empty) 0 with
    | error e =>
      rw [hp] at h
      simp [Except.isOk, Except.toBool, Bind.bind, Except.bind] at h
    | ok bp =>
      obtain ⟨bb, pos⟩ := bp
      rw [hp] at h
      by_cases hpos : pos = 64
      · obtain ⟨a1, a2, a3⟩ := placeChars_props _ _ _ _ _ hp
        exact ⟨a1, a2, by omega⟩
      · simp [Bind.bind, Except.bind, hpos, Except.isOk, Except.toBool] at h
  · rw [if_neg hl] at h
    simp [Except.isOk, Except.toBool] at h

/-- The board-placement field used by the C7 development: two lone kings. -/
def c7placement : List Char := "k7/8/8/8/8/8/8/K7".toList

/-- C7 (amended): the move-counter fields are only checked for being
numeric (and the half-move clock for being non-negative); no consistency
between the full-move number and the half-move clock is ever enforced, and
the board is constructed with the half-move clock taken verbatim from the
sixth field. -/
theorem c7_no_counter_consistency (f5 f6 : List Char)
    (h5 : isNumericStr f5 = true) (h6 : isNumericStr f6 = true) :
    (parse_fields [c7placement, ['w'], ['-'], ['-'], f5, f6]).isOk = true ∧
      (parse_fields [c7placement, ['w'], ['-'], ['-'], f5, f6]).toOption.map
        Chessboard.halfmoves = some ((natOfDigits f6 : Int)) := by
  have hplace : ∃ bb, placeChars c7placement (fun _ => Piece.empty) 0 =
      Except.ok (bb, 64) := ⟨_, rfl⟩
  obtain ⟨bb, hbb⟩ := hplace
  have hcf : check_fullmove f5 = Except.ok () := by
    unfold check_fullmove
    rw [if_pos h5]
  have hph : parse_halfmove f6 = Except.ok ((natOfDigits f6 : Int)) := by
    unfold parse_halfmove
    rw [if_pos h6, if_pos (by omega : (natOfDigits f6 : Int) ≥ 0)]
  have hkey : parse_fields [c7placement, ['w'], ['-'], ['-'], f5, f6] =
      Except.ok { board := bb, active_colour := PieceColour.White,
                  castling_rights := ⟨false, false, false, false⟩,
                  en_passant_target := none, halfmoves := (natOfDigits f6 : Int) } := by
    unfold parse_fields
    rw [if_pos (show ([c7placement, ['w'], ['-'], ['-'], f5, f6] :
      List (List Char)).length = 6 from rfl)]
    simp only [List.getD_cons_zero, List.getD_cons_succ]
    rw [hbb]
    simp only [Bind.bind, Except.bind, if_true]
    rw [show parse_active ['w'] = Except.ok PieceColour.White from rfl]
    dsimp only
    rw [show parse_ep_field ['-'] = Except.ok (none : Option Int) from rfl]
    dsimp only
    rw [hcf]
    dsimp only
    rw [hph]
  rw [hkey]
  exact ⟨rfl, rfl⟩

/-- C10: neither `make_move` nor `unmake_move` touches the active colour or
the en-passant target: whenever either completes, both fields carry exactly
the values they had before the call. -/
theorem c10_side_and_ep_untouched (s : Chessboard) (m : Move) :
    ((make_move s m).all fun q =>
        decide (q.active_colour = s.active_colour) &&
        decide (q.en_passant_target = s.en_passant_target)) = true ∧
    ((unmake_move s m).all fun q =>
        decide (q.active_colour = s.active_colour) &&
        decide (q.en_passant_target = s.en_passant_target)) = true := by
  constructor
  · unfold make_move
    cases hr : make_rights s m with
    | none => rfl
    | some r =>
      cases hb : make_board s.board m with
      | none => rfl
      | some b => simp
  · unfold unmake_move
    cases hr : unmake_rights s m with
    | none => rfl
    | some r =>
      cases hb : unmake_board s.board m with
      | none => rfl
      | some b => simp

/-- Black pawn on square 8 (file a, rank index 1), white blocker on the
intervening square 16, empty destination 24. -/
def c4cexBoard : Fin 64 → Piece := fun i =>
  if i = (8 : Fin 64) then ⟨PieceType.Pawn, PieceColour.Black⟩
  else if i = (16 : Fin 64) then ⟨PieceType.Pawn, PieceColour.White⟩
  else Piece.empty

/-- C4: the pawn validator accepts the two-square push 8→24 although the
intervening square 16 is occupied — the code checks only the destination
for emptiness, not the path, contradicting the claimed empty-path rule. -/
theorem c4_two_square_push_ignores_blocker :
    can_pawn_make c4cexBoard 0 1 0 3 = true ∧
    c4cexBoard (8 : Fin 64) = ⟨PieceType.Pawn, PieceColour.Black⟩ ∧
    (c4cexBoard (16 : Fin 64)).Ty ≠ PieceType.Empty ∧
    (c4cexBoard (24 : Fin 64)).Ty = PieceType.Empty := by
  decide

/-- C9: the shipped const.py has no `CastlingType.KingSide` or
`CastlingType.QueenSide` member, no `MoveFlags.LoseCastling` field, and a
three-parameter `Move` initializer; hence the attribute accesses and calls
that `Chessboard.__init__` (and so `from_fen` / `from_state`),
`_force_can_make`'s flag decoration, and `make_move` / `unmake_move`
perform all raise (AttributeError / TypeError) instead of completing. -/
theorem c9_const_module_mismatch :
    chessboardInitAccess = none ∧ fromFenInitAccess = none ∧
    fromStateInitAccess = none ∧ forceCanMakeFlagsCall = none ∧
    forceCanMakeMoveCall = none ∧ makeMoveLoseCastlingAccess = none ∧
    "KingSide" ∉ castlingTypeMembers ∧ "QueenSide" ∉ castlingTypeMembers ∧
    "LoseCastling" ∉ moveFlagsFields ∧ moveInitParams.length = 3 := by
  decide

/-- A lone white pawn on square 48 (with both kings present), no castling
rights, used by the C1 development. -/
def c1cexBoard : Fin 64 → Piece := fun i =>
  if i = (60 : Fin 64) then ⟨PieceType.King, PieceColour.White⟩
  else if i = (4 : Fin 64) then ⟨PieceType.King, PieceColour.Black⟩
  else if i = (48 : Fin 64) then ⟨PieceType.Pawn, PieceColour.White⟩
  else Piece.empty

def c1cexState : Chessboard :=
  { board := c1cexBoard, active_colour := PieceColour.White,
    castling_rights := ⟨false, false, false, false⟩,
    en_passant_target := none, halfmoves := 0 }

/-- A pawn push 48→40 decorated by the caller with a stale LoseCastling
flag naming a right that is not currently granted. -/
def c1cexMove : Move := ⟨48, 40, Piece.empty, ⟨none, none, some [CastlingType.KingSide]⟩⟩

/-- C1 counterexample: the move is applicable in the claim's sense (its
Captured field matches the destination occupant), yet make then unmake
turns White's king-side castling right from false to true — the position is
not restored. -/
theorem c1_claim_counterexample :
    c1cexMove.Captured = c1cexState.board c1cexMove.To ∧
    (round_trip c1cexState c1cexMove).map (fun q => q.castling_rights.whiteKing) =
      some true ∧
    c1cexState.castling_rights.whiteKing = false :=
  ⟨rfl, rfl, rfl⟩

/-- The same pawn push with the flags the engine itself would attach. -/
def c1wMove : Move := ⟨48, 40, Piece.empty, {}⟩

theorem c1_round_trip_restores_witness :
    (round_trip c1cexState c1wMove).all (fun q => obsEq q c1cexState) = true :=
  c1_round_trip_restores c1cexState c1wMove rfl rfl rfl

/-- Kings on 60 and 4, white pawn on 48, no castling rights: the C2
position. -/
def c2cexBoard : Fin 64 → Piece := fun i =>
  if i = (60 : Fin 64) then ⟨PieceType.King, PieceColour.White⟩
  else if i = (4 : Fin 64) then ⟨PieceType.King, PieceColour.Black⟩
  else if i = (48 : Fin 64) then ⟨PieceType.Pawn, PieceColour.White⟩
  else Piece.empty

def c2cexState : Chessboard :=
  { board := c2cexBoard, active_colour := PieceColour.White,
    castling_rights := ⟨false, false, false, false⟩,
    en_passant_target := none, halfmoves := 0 }

def c2cexMove : Move := ⟨48, 40, Piece.empty, ⟨none, none, some [CastlingType.KingSide]⟩⟩

/-- C2 counterexample: `can_make` returns (a completed move, here), yet the
position it leaves behind differs from the original — the speculative
apply/undo has turned White's king-side castling right from false to
true. -/
theorem c2_claim_counterexample :
    (can_make c2cexState c2cexMove).isSome = true ∧
    (can_make c2cexState c2cexMove).map (fun x => x.2.castling_rights.whiteKing) =
      some true ∧
    c2cexState.castling_rights.whiteKing = false :=
  ⟨rfl, rfl, rfl⟩

def c2wMove : Move := ⟨48, 40, Piece.empty, {}⟩

theorem c2_can_make_unchanged_witness :
    (can_make c2cexState c2wMove).all (fun x => obsEq x.2 c2cexState) = true :=
  c2_can_make_unchanged c2cexState c2wMove rfl rfl

/-- White pawn on 12 facing the black king on 4: the C3 position. -/
def c3wBoard : Fin 64 → Piece := fun i =>
  if i = (4 : Fin 64) then ⟨PieceType.King, PieceColour.Black⟩
  else if i = (12 : Fin 64) then ⟨PieceType.Pawn, PieceColour.White⟩
  else Piece.empty

def c3wState : Chessboard :=
  { board := c3wBoard, active_colour := PieceColour.White,
    castling_rights := ⟨false, false, false, false⟩,
    en_passant_target := none, halfmoves := 0 }

def c3wMove : Move := ⟨12, 4, ⟨PieceType.King, PieceColour.Black⟩, {}⟩

theorem c3_king_capture_rejected_witness :
    can_make c3wState c3wMove = some (none, c3wState) :=
  c3_king_capture_rejected c3wState c3wMove (by decide) rfl (by decide)

/-- A position string whose placement field holds nine ranks, one of them
empty (between the double slash): every `/` sits at a multiple-of-8 count,
so the parser accepts it. -/
def c6cexFen : List Char := "8/8/8/8/8/8/8//8 w - - 1 0".toList

/-- C6 counterexample: the placement contains a rank summing to 0 squares
(fewer than 8), yet `from_fen` returns a board instead of failing. -/
theorem c6_claim_counterexample :
    (from_fen c6cexFen).isOk = true ∧
    (splitWs c6cexFen).getD 0 [] = "8/8/8/8/8/8/8//8".toList ∧
    ((splitSlash ("8/8/8/8/8/8/8//8".toList)).map squareSum).contains 0 = true :=
  ⟨rfl, rfl, rfl⟩

def c6wFen : List Char :=
  "rnbqkbnr/pppppppp/8/8/8/8/PPPPPPPP/RNBQKBNR w KQkq - 0 1".toList

theorem c6_placement_checks_witness :
    ((splitWs c6wFen).getD 0 []).all recognizedChar = true ∧
      boundariesAligned ((splitWs c6wFen).getD 0 []) 0 = true ∧
      squareSum ((splitWs c6wFen).getD 0 []) = 64 :=
  c6_placement_checks c6wFen rfl

/-- A position string whose full-move number 5 and half-move clock 100 are
inconsistent in the claim's sense (they differ by far more than 1 when the
clock is halved). -/
def c7cexFen : List Char := "k7/8/8/8/8/8/8/K7 w - - 5 100".toList

/-- C7 counterexample: the counters are numeric, the full-move number is
inconsistent with the half-move clock, and `from_fen` still returns a board
carrying the half-move clock 100. -/
theorem c7_claim_counterexample :
    isNumericStr ((splitWs c7cexFen).getD 4 []) = true ∧
    isNumericStr ((splitWs c7cexFen).getD 5 []) = true ∧
    natOfDigits ((splitWs c7cexFen).getD 4 []) = 5 ∧
    natOfDigits ((splitWs c7cexFen).getD 5 []) = 100 ∧
    ¬(natOfDigits ((splitWs c7cexFen).getD 5 []) / 2 ≤
        natOfDigits ((splitWs c7cexFen).getD 4 []) + 1 ∧
      natOfDigits ((splitWs c7cexFen).getD 4 []) ≤
        natOfDigits ((splitWs c7cexFen).getD 5 []) / 2 + 1) ∧
    (from_fen c7cexFen).isOk = true ∧
    (from_fen c7cexFen).toOption.map Chessboard.halfmoves = some 100 := by
  refine ⟨rfl, rfl, rfl, rfl, by decide, rfl, rfl⟩

theorem c7_no_counter_consistency_witness :
    (parse_fields [c7placement, ['w'], ['-'], ['-'], "5".toList, "100".toList]).isOk
        = true ∧
      (parse_fields [c7placement, ['w'], ['-'], ['-'], "5".toList,
        "100".toList]).toOption.map Chessboard.halfmoves =
        some ((natOfDigits "100".toList : Int)) :=
  c7_no_counter_consistency "5".toList "100".toList rfl rfl

/-- A small deterministic Zobrist table for the C8 witness. -/
def c8zt : ZTable := fun i j => (i : Nat) * 12 + (j : Nat) + 1

def c8wBoard : Fin 64 → Piece := fun i =>
  if i = (0 : Fin 64) then ⟨PieceType.Pawn, PieceColour.White⟩ else Piece.empty

def c8s1 : Chessboard :=
  { board := c8wBoard, active_colour := PieceColour.White,
    castling_rights := ⟨true, true, true, true⟩,
    en_passant_target := none, halfmoves := 0 }

/-- Same placement as `c8s1`, every other state component different. -/
def c8s2 : Chessboard :=
  { board := c8wBoard, active_colour := PieceColour.Black,
    castling_rights := ⟨false, false, false, false⟩,
    en_passant_target := some 20, halfmoves := 99 }

theorem c8_hash_placement_only_witness :
    Chessboard.hash c8zt c8s1 = Chessboard.hash c8zt c8s2 ∧
      Chessboard.hash c8zt c8s1 = some (hashSpec c8zt c8s1.board) :=
  c8_hash_placement_only c8zt c8s1 c8s2 rfl (by decide)
